import Mathlib

/-
  Verification development for the GPIO pulse counter repository.

  The Python sources (src/app/gpio_counter.py, src/app/peer_sync.py,
  src/app/csv_logger.py) are shallowly embedded below.  Python floats are
  modelled as exact rationals (ℚ); Python ints as ℕ/ℤ.  Fallible paths
  (functions returning Optional, or raising) are modelled with Option and
  Except.  One representation choice: the source computes the jitter
  coefficient of variation `jitter_cv = sigma / mu` with `sigma = sqrt(var)`;
  to stay inside ℚ we carry its square `jitterSq = var / mu^2` instead, and
  the source's comparison `jitter_cv < tau` is transcribed as the exactly
  equivalent `0 < tau ∧ jitterSq < tau^2` (for `var ≥ 0`, `mu > 0`).
  Environment-derived constants (REF_WINDOW_PULSES, TIME_WINDOW_SEC,
  QUALITY_JITTER_TAU, CAL_KP, CAL_KI, PPM_LIMIT, ...) are parameters.
-/

/-- The reference ring `PulseCounter._z_ref_times = deque(maxlen=REF_WINDOW_PULSES + 1)`:
appending evicts from the left once the deque holds `R + 1` elements. -/
def pushRing (R : ℕ) (x : ℚ) (l : List ℚ) : List ℚ :=
  let l2 := l ++ [x]
  l2.drop (l2.length - (R + 1))

/-- A whole sequence of pushes into an initially empty ring. -/
def pushAll (R : ℕ) (ts : List ℚ) : List ℚ :=
  ts.foldl (fun l t => pushRing R t l) []

/-- Inter-arrival intervals: `[t2 - t1 for t1, t2 in zip(times[:-1], times[1:])]`. -/
def intervalsOf (times : List ℚ) : List ℚ :=
  (times.zip times.tail).map fun p => p.2 - p.1

/-- Python `statistics.median`: sort; middle element for odd length, mean of the
two middle elements for even length.  (The source only calls it on nonempty
lists; we return 0 on the empty list.) -/
def pymedian (l : List ℚ) : ℚ :=
  let s := l.insertionSort (· ≤ ·)
  let n := s.length
  if n % 2 = 1 then s.getD (n / 2) 0
  else (s.getD (n / 2 - 1) 0 + s.getD (n / 2) 0) / 2

/-- The outlier rejection step of `PulseCounter._ref_stats`: when at least 5
intervals are present, drop every interval above `5 * median`. -/
def filteredIntervals (ivs : List ℚ) : List ℚ :=
  if 5 ≤ ivs.length then ivs.filter (fun x => x ≤ 5 * pymedian ivs) else ivs

/-- The tail of `PulseCounter._ref_stats` after outlier filtering:
`N = min(REF_WINDOW_PULSES, len(intervals))`, `use = intervals[-N:]`,
`T_ref = sum(use)`, `r_ref = N / T_ref`, `mu = T_ref / N`,
`var = sum((x - mu)^2 for x in use) / len(use)`.  The returned third component
is the square of the source's `jitter_cv = sqrt(var) / mu` (here `mu > 0`
always holds, so the source's `mu > 0` guard branch returning infinity is
dead code). -/
def statsFromIntervals (R : ℕ) (ivs : List ℚ) : Option (ℕ × ℚ × ℚ) :=
  let N := min R ivs.length
  if N = 0 then none
  else
    let use := ivs.drop (ivs.length - N)
    let T := use.sum
    if T ≤ 0 then none
    else
      let mu := T / (N : ℚ)
      let var := (use.map (fun x => (x - mu) ^ 2)).sum / (use.length : ℚ)
      some (N, (N : ℚ) / T, var / mu ^ 2)

/-- `PulseCounter._ref_stats`: `None` until the ring holds `R + 1` timestamps,
otherwise statistics over the outlier-filtered inter-arrival intervals. -/
def refStats (R : ℕ) (times : List ℚ) : Option (ℕ × ℚ × ℚ) :=
  if times.length < R + 1 then none
  else statsFromIntervals R (filteredIntervals (intervalsOf times))

/-- `PulseCounter._compute_window`: `dt = now - t0`,
`dc = count_total - window_count0`, `rate = dc / dt if dt > 0 else 0.0`. -/
def computeWindow (t0 : ℚ) (count0 : ℕ) (now : ℚ) (total : ℕ) : ℚ × ℤ × ℚ :=
  let dt := now - t0
  let dc : ℤ := (total : ℤ) - (count0 : ℤ)
  (dt, dc, if 0 < dt then (dc : ℚ) / dt else 0)

/-- The window-due test on line 319 of gpio_counter.py:
`abs(dt - TIME_WINDOW_SEC) < 0.2 and dt >= TIME_WINDOW_SEC`. -/
def windowDue (W dt : ℚ) : Bool :=
  decide (|dt - W| < 1 / 5) && decide (W ≤ dt)

/-- `PulseCounter._compute_z`: `None` when ring statistics are unavailable or
`dR = r_ref * window_sec ≤ 0`, else `delta_count / dR`. -/
def computeZ (R : ℕ) (times : List ℚ) (windowSec : ℚ) (deltaCount : ℤ) : Option ℚ :=
  match refStats R times with
  | none => none
  | some (_, rref, _) =>
    let dR := rref * windowSec
    if dR ≤ 0 then none else some ((deltaCount : ℚ) / dR)

/-- `PulseCounter._drift_level`, transcribed with the source's literal
comparison order (`d < 2e-4 → LOW`, then `d < 1e-4 → MED`, then
`d < 5e-3 → HIGH`).  A missing `z` stands in for Python's
`None`-or-non-finite case (exact rationals are always finite). -/
def driftLevel (z : Option ℚ) (warmup : Bool) : String :=
  match z with
  | none => if warmup then "MED" else "CRITICAL"
  | some z =>
    let d := |z - 1|
    if d < 2 / 10 ^ 4 then "LOW"
    else if d < 1 / 10 ^ 4 then "MED"
    else if d < 5 / 10 ^ 3 then "HIGH"
    else if warmup then "MED" else "CRITICAL"

/-- The source's comparison `jitter_cv < tau` where `jitter_cv = sqrt(v)` for
the carried square `v ≥ 0`: exactly `0 < tau ∧ v < tau^2`. -/
def jitterLt (v tau : ℚ) : Bool :=
  decide (0 < tau) && decide (v < tau ^ 2)

/-- `PulseCounter._quality_and_lock`. -/
def qualityAndLock (R : ℕ) (tau : ℚ) (calOn peerLockOn : Bool) (times : List ℚ) :
    String × String :=
  match refStats R times with
  | none => ("WARMUP", "WARMUP")
  | some (N, _, jsq) =>
    if N < R then ("WARMUP", "WARMUP")
    else if jitterLt jsq tau then ("OK", if calOn || peerLockOn then "LOCKED" else "FREE")
    else ("WARN", if calOn || peerLockOn then "HOLD" else "FREE")

/-- Mutable calibration state of the counter: `_i_term` and `_ppm_offset`. -/
structure CalState where
  iTerm : ℚ
  ppmOffset : ℚ
  deriving DecidableEq, Repr

/-- Configuration constants read by `_apply_calibration`. -/
structure CalCfg where
  Kp : ℚ
  Ki : ℚ
  ppmLimit : ℚ
  W : ℚ
  peerLockOn : Bool
  deriving DecidableEq, Repr

/-- Target selection at the top of `_apply_calibration`: the best peer rate
when a peer object exists, it has a best rate, and PEER_LOCK_ON; otherwise
the local `_rate_target`. -/
def effTarget (hasPeer : Bool) (peerBest : Option ℚ) (peerLockOn : Bool)
    (rateTarget : ℚ) : ℚ :=
  match hasPeer, peerBest, peerLockOn with
  | true, some b, true => b
  | _, _, _ => rateTarget

/-- The relative rate error: `(target - rate_hz) / target if target > 0 else 0.0`. -/
def calError (target rateHz : ℚ) : ℚ :=
  if 0 < target then (target - rateHz) / target else 0

/-- `PulseCounter._apply_calibration`: pick the effective target, form the
relative error, update the integral term
(`i_term += e * (window_sec / max(1.0, TIME_WINDOW_SEC))`), and clamp the PI
output to `[-PPM_LIMIT, PPM_LIMIT]`. -/
def applyCalibration (cfg : CalCfg) (hasPeer : Bool) (peerBest : Option ℚ)
    (rateTarget rateHz windowSec : ℚ) (s : CalState) : CalState :=
  let e := calError (effTarget hasPeer peerBest cfg.peerLockOn rateTarget) rateHz
  let i := s.iTerm + e * (windowSec / max 1 cfg.W)
  { iTerm := i, ppmOffset := max (-cfg.ppmLimit) (min cfg.ppmLimit (cfg.Kp * e + cfg.Ki * i)) }

/-- One calibration input: (peer object present, best peer rate, local target,
measured rate, window length). -/
structure CalInput where
  hasPeer : Bool
  peerBest : Option ℚ
  rateTarget : ℚ
  rateHz : ℚ
  windowSec : ℚ
  deriving DecidableEq, Repr

/-- Folding a whole sequence of calibration steps. -/
def calRun (cfg : CalCfg) (s : CalState) (inputs : List CalInput) : CalState :=
  inputs.foldl
    (fun st a => applyCalibration cfg a.hasPeer a.peerBest a.rateTarget a.rateHz a.windowSec st) s

/-- The acquisition-side state touched by `PulseCounter._edge_cb`. -/
structure AcqState where
  lastPulseTime : Option ℚ
  countTotal : ℕ
  ring : List ℚ
  deriving DecidableEq, Repr

/-- `PulseCounter._edge_cb`: ignore levels outside {0, 1}; otherwise stamp the
pulse time, increment the total count and append to the reference ring. -/
def edgeCb (R : ℕ) (level : ℤ) (now : ℚ) (s : AcqState) : AcqState :=
  if level = 0 ∨ level = 1 then
    { lastPulseTime := some now, countTotal := s.countTotal + 1, ring := pushRing R now s.ring }
  else s

/-- State of `PeerSync` visible to arbitration: the `last_seen` presence map
(an association list address → last-seen instant) and the four `best_peer_*`
fields. -/
structure PeerState where
  lastSeen : List (String × ℚ)
  bestRate : Option ℚ
  bestQuality : Option String
  bestJitter : Option ℚ
  bestIp : Option String
  deriving DecidableEq, Repr

/-- A decoded peer telegram: the three fields `PeerSync._loop` reads via
`obj.get`.  A malformed JSON payload behaves like all three missing (the
source `continue`s after updating `last_seen` in both cases). -/
structure Telegram where
  rate : Option ℚ
  quality : Option String
  jitter : Option ℚ
  deriving DecidableEq, Repr

/-- Update of the `last_seen` association list: `last_seen[addr] = now`. -/
def upsertSeen (addr : String) (now : ℚ) (l : List (String × ℚ)) : List (String × ℚ) :=
  match l with
  | [] => [(addr, now)]
  | (a, t) :: rest => if a = addr then (a, now) :: rest else (a, t) :: upsertSeen addr now rest

/-- One datagram iteration of `PeerSync._loop` (lines 30-45): record
`last_seen`, discard telegrams missing `rate_hz` or `quality`, and replace the
best peer only for `quality == "OK"` with a present jitter that beats (is
strictly below) the recorded best jitter, or when no best jitter exists yet. -/
def peerObserve (s : PeerState) (addr : String) (tg : Telegram) (now : ℚ) : PeerState :=
  let s := { s with lastSeen := upsertSeen addr now s.lastSeen }
  match tg.rate, tg.quality, tg.jitter with
  | some r, some q, j =>
    if q = "OK" then
      match j with
      | some jv =>
        if (match s.bestJitter with | none => true | some bj => decide (jv < bj)) then
          { s with bestRate := some r, bestQuality := some q,
                   bestJitter := some jv, bestIp := some addr }
        else s
      | none => s
    else s
  | _, _, _ => s

/-- The timeout branch of `PeerSync._loop` (lines 26-28): drop `last_seen`
entries older than 30 seconds.  Only presence tracking; `best_peer_*` is
untouched. -/
def peerExpire (s : PeerState) (now : ℚ) : PeerState :=
  { s with lastSeen := s.lastSeen.filter (fun kv => ¬ (30 < now - kv.2)) }

/-- The initial `PeerSync` state: empty presence map, no best peer. -/
def peerInit : PeerState :=
  { lastSeen := [], bestRate := none, bestQuality := none, bestJitter := none, bestIp := none }

/-- Configuration constants read by the sampling loop `PulseCounter._run`. -/
structure EngineCfg where
  R : ℕ
  W : ℚ
  tau : ℚ
  calOn : Bool
  peerLockOn : Bool
  zSendEnabled : Bool
  hasZSender : Bool
  zSendInterval : ℚ
  Kp : ℚ
  Ki : ℚ
  ppmLimit : ℚ
  hasPeer : Bool
  deriving DecidableEq, Repr

/-- The snapshot of the `PeerSync` fields the counter reads
(`best_peer_rate`, `best_peer_quality`). -/
structure PeerView where
  bestRate : Option ℚ
  bestQuality : Option String
  deriving DecidableEq, Repr

/-- The record handed to `csv.write_row` once per committed window (plus once
at stop).  Field order matches the CSV column order, minus the timestamp the
writer generates itself. -/
structure OutputRow where
  seq : ℕ
  count : ℕ
  deltaCount : ℤ
  rateHz : ℚ
  status : String
  z : Option ℚ
  driftLevel : String
  windowSec : ℚ
  quality : String
  rateTarget : ℚ
  ppmOffset : ℚ
  lockState : String
  peerRateHz : Option ℚ
  peerQuality : Option String
  deriving DecidableEq, Repr

/-- The mutable state threaded through iterations of `PulseCounter._run`.
`zLocal` models the Python local variable `z` of `_run`: `none` means
the name was never assigned (so that reading it raises UnboundLocalError),
`some zv` means it currently holds `zv` (itself an Optional float). -/
structure RunState where
  countTotal : ℕ
  ring : List ℚ
  t0 : ℚ
  windowCount0 : ℕ
  lastRateHz : ℚ
  lastWindowSec : ℚ
  lastZ : Option ℚ
  zLocal : Option (Option ℚ)
  quality : Option String
  rateTarget : ℚ
  iTerm : ℚ
  ppmOffset : ℚ
  seq : ℕ
  zLastEmit : ℚ
  peerRateHz : Option ℚ
  peerQuality : Option String
  deriving DecidableEq, Repr

/-- The telegram-emission branch of the tick (lines 356-371): when due, it
recomputes `z` (binding the loop-local variable `z`) from
`max(1e-6, _last_window_sec)` and the tick's `dc`, and resets the emit clock. -/
def telegramStep (cfg : EngineCfg) (s : RunState) (dc : ℤ) (now : ℚ) : RunState :=
  if cfg.zSendEnabled && cfg.hasZSender && decide (cfg.zSendInterval ≤ now - s.zLastEmit) then
    { s with zLocal := some (computeZ cfg.R s.ring (max (1 / 10 ^ 6) s.lastWindowSec) dc),
             zLastEmit := now }
  else s

/-- One iteration of the `while not self._stop_evt.wait(0.01)` loop body of
`PulseCounter._run` (lines 316-371).  `Except.error ()` models the
UnboundLocalError raised at line 324, where `self._drift_level(z, warmup)`
reads the loop-local `z` that is only ever assigned inside the telegram
branch (line 357). -/
def runTick (cfg : EngineCfg) (peer : PeerView) (s : RunState) (now : ℚ) :
    Except Unit (RunState × Option OutputRow) :=
  let w := computeWindow s.t0 s.windowCount0 now s.countTotal
  let dt := w.1
  let dc := w.2.1
  let rate := w.2.2
  if windowDue cfg.W dt then
    let warmup :=
      match refStats cfg.R s.ring with
      | none => true
      | some (N, _, _) => decide (N < cfg.R)
    let lastZ := computeZ cfg.R s.ring dt dc
    let ql := qualityAndLock cfg.R cfg.tau cfg.calOn cfg.peerLockOn s.ring
    match s.zLocal with
    | none => Except.error ()
    | some zStale =>
      let drift := driftLevel zStale warmup
      let lock := if warmup then "WARMUP" else ql.2
      let cal :=
        if cfg.calOn || cfg.peerLockOn then
          applyCalibration ⟨cfg.Kp, cfg.Ki, cfg.ppmLimit, cfg.W, cfg.peerLockOn⟩
            cfg.hasPeer peer.bestRate s.rateTarget rate dt ⟨s.iTerm, s.ppmOffset⟩
        else ⟨s.iTerm, s.ppmOffset⟩
      let pr := if cfg.hasPeer then peer.bestRate else s.peerRateHz
      let pq := if cfg.hasPeer then peer.bestQuality else s.peerQuality
      let row : OutputRow :=
        { seq := s.seq + 1, count := s.countTotal, deltaCount := dc, rateHz := rate,
          status := "RUNNING", z := lastZ, driftLevel := drift, windowSec := dt,
          quality := ql.1, rateTarget := s.rateTarget, ppmOffset := cal.ppmOffset,
          lockState := lock, peerRateHz := pr, peerQuality := pq }
      let s1 : RunState :=
        { s with lastRateHz := rate, lastZ := lastZ, quality := some ql.1,
                 iTerm := cal.iTerm, ppmOffset := cal.ppmOffset,
                 peerRateHz := pr, peerQuality := pq, seq := s.seq + 1,
                 t0 := now, windowCount0 := s.countTotal, lastWindowSec := dt }
      Except.ok (telegramStep cfg s1 dc now, some row)
  else
    Except.ok (telegramStep cfg s dc now, none)

/-- Whether an Except value is an error. -/
def isError {ε α : Type} : Except ε α → Bool
  | Except.error _ => true
  | Except.ok _ => false

/-- The character for a decimal digit value. -/
def digitChar (d : ℕ) : Char := Char.ofNat (48 + d)

/-- Decimal rendering of a natural number, as Python's `str`. -/
def natChars (n : ℕ) : List Char :=
  if n = 0 then ['0'] else (Nat.digits 10 n).reverse.map digitChar

/-- Decimal rendering of an integer, as Python's `str`. -/
def intChars (n : ℤ) : List Char :=
  (if n < 0 then ['-'] else []) ++ natChars n.natAbs

/-- Left-pad with zeros up to width `p`. -/
def padZeros (p : ℕ) (l : List Char) : List Char :=
  List.replicate (p - l.length) '0' ++ l

/-- Round half to even, the rounding Python applies when formatting. -/
def rndHE (x : ℚ) : ℤ :=
  let f := ⌊x⌋
  let r := x - (f : ℚ)
  if r < 1 / 2 then f
  else if 1 / 2 < r then f + 1
  else if f % 2 = 0 then f else f + 1

/-- Digits of the fixed-point rendering with `p` decimals of a nonnegative
scaled value `m` (the integer nearest `|q| * 10^p`). -/
def fixedCore (p : ℕ) (m : ℕ) : List Char :=
  natChars (m / 10 ^ p) ++ '.' :: padZeros p (natChars (m % 10 ^ p))

/-- The scaled magnitude used by fixed-point formatting. -/
def scaleMag (p : ℕ) (q : ℚ) : ℕ := (rndHE (|q| * 10 ^ p)).toNat

/-- Python's `f"{q:.pf}"` under exact-rational arithmetic.  (The source also
writes `f"{ppm_offset:3f}"`: format spec width 3, precision defaulting to 6;
the width never binds because a rendering with 6 decimals has at least 8
characters, so it equals `f"{ppm_offset:.6f}"`.) -/
def fixedChars (p : ℕ) (q : ℚ) : List Char :=
  (if q < 0 then ['-'] else []) ++ fixedCore p (scaleMag p q)

/-- Python's `f"{q: .pf}"` (space sign flag, used for `peer_rate_hz`):
nonnegative values get a leading space instead of an empty sign. -/
def fixedCharsSp (p : ℕ) (q : ℚ) : List Char :=
  (if q < 0 then ['-'] else [' ']) ++ fixedCore p (scaleMag p q)

/-- The fifteen comma-separated fields of `CsvRotatingWriter.write_row`
(line 74 of csv_logger.py), in column order.  `ts` is the timestamp string
the writer generates; the final field carries the literal space the f-string
places between `{peer_quality or ''}` and the newline. -/
def rowFields (ts : List Char) (r : OutputRow) : List (List Char) :=
  [natChars r.seq,
   natChars r.count,
   intChars r.deltaCount,
   fixedChars 9 r.rateHz,
   r.status.data,
   ts,
   (match r.z with | none => [] | some zv => fixedChars 9 zv),
   r.driftLevel.data,
   fixedChars 6 r.windowSec,
   r.quality.data,
   fixedChars 9 r.rateTarget,
   fixedChars 6 r.ppmOffset,
   r.lockState.data,
   (match r.peerRateHz with | none => [] | some xv => fixedCharsSp 9 xv),
   (match r.peerQuality with | none => [] | some s => s.data) ++ [' ']]

/-- Join fields with commas. -/
def joinComma : List (List Char) → List Char
  | [] => []
  | [f] => f
  | f :: fs => f ++ ',' :: joinComma fs

/-- The full CSV line emitted by `write_row`, newline included. -/
def writeRowLine (ts : List Char) (r : OutputRow) : List Char :=
  joinComma (rowFields ts r) ++ ['\n']

/-- Split a character list at every occurrence of `c`. -/
def splitOnC (c : Char) : List Char → List (List Char)
  | [] => [[]]
  | a :: rest =>
    if a = c then [] :: splitOnC c rest
    else
      match splitOnC c rest with
      | f :: fs => (a :: f) :: fs
      | [] => [[a]]

/-- Decimal digit value of a character, if it is a digit. -/
def charDigit? (c : Char) : Option ℕ :=
  if 48 ≤ c.toNat ∧ c.toNat ≤ 57 then some (c.toNat - 48) else none

/-- Parse a nonempty all-digit character list as a natural number. -/
def natOf? (l : List Char) : Option ℕ :=
  if l = [] then none
  else (l.mapM charDigit?).map (fun ds => Nat.ofDigits 10 ds.reverse)

/-- Strip one leading minus sign, reporting whether one was present. -/
def parseSign (l : List Char) : Bool × List Char :=
  match l with
  | [] => (false, [])
  | c :: r => if c = '-' then (true, r) else (false, c :: r)

/-- Parse an optionally signed decimal with an optional fractional part,
tolerating leading spaces (as Python's float parsing does, covering the
space sign flag of `peer_rate_hz`). -/
def parseFixed? (l : List Char) : Option ℚ :=
  let sl := parseSign (l.dropWhile (· = ' '))
  match splitOnC '.' sl.2 with
  | [a, b] => do
    let ip ← natOf? a
    let fp ← natOf? b
    let v : ℚ := (ip : ℚ) + (fp : ℚ) / 10 ^ b.length
    pure (if sl.1 then -v else v)
  | [a] => (natOf? a).map (fun n => if sl.1 then -(n : ℚ) else (n : ℚ))
  | _ => none

/-- Parse an optionally signed integer. -/
def parseInt? (l : List Char) : Option ℤ :=
  let sl := parseSign l
  (natOf? sl.2).map (fun n => if sl.1 then -(n : ℤ) else (n : ℤ))

/-- Parse an optional column: the empty field is an absent value. -/
def parseOpt {α : Type} (f : List Char → Option α) (l : List Char) : Option (Option α) :=
  if l = [] then some none else (f l).map some

/-- Drop trailing spaces of a field. -/
def stripTrailSpaces (l : List Char) : List Char :=
  (l.reverse.dropWhile (· = ' ')).reverse

/-- Drop the line-terminating newline, when present. -/
def dropTrailingNewline (l : List Char) : List Char :=
  if l.getLast? = some '\n' then l.dropLast else l

/-- A CSV row read back by column position. -/
structure ParsedRow where
  seq : ℕ
  count : ℕ
  deltaCount : ℤ
  rateHz : ℚ
  status : String
  timestamp : String
  z : Option ℚ
  driftLevel : String
  windowSec : ℚ
  quality : String
  rateTarget : ℚ
  ppmOffset : ℚ
  lockState : String
  peerRateHz : Option ℚ
  peerQuality : Option String
  deriving DecidableEq, Repr

/-- Parse one CSV line by column position: split on commas, parse each column
at its declared type, strip the writer's trailing space from the final
column (an empty result meaning no peer quality). -/
def parseRow? (line : List Char) : Option ParsedRow :=
  match splitOnC ',' (dropTrailingNewline line) with
  | [f1, f2, f3, f4, f5, f6, f7, f8, f9, f10, f11, f12, f13, f14, f15] => do
    let seq ← natOf? f1
    let count ← natOf? f2
    let dc ← parseInt? f3
    let rate ← parseFixed? f4
    let z ← parseOpt parseFixed? f7
    let ws ← parseFixed? f9
    let rt ← parseFixed? f11
    let ppm ← parseFixed? f12
    let pr ← parseOpt parseFixed? f14
    let pqChars := stripTrailSpaces f15
    pure { seq := seq, count := count, deltaCount := dc, rateHz := rate,
           status := ⟨f5⟩, timestamp := ⟨f6⟩, z := z, driftLevel := ⟨f8⟩,
           windowSec := ws, quality := ⟨f10⟩, rateTarget := rt, ppmOffset := ppm,
           lockState := ⟨f13⟩, peerRateHz := pr,
           peerQuality := if pqChars = [] then none else some ⟨pqChars⟩ }
  | _ => none

/-- A rational is representable with `p` decimal places. -/
def RepFixed (p : ℕ) (q : ℚ) : Prop := ∃ n : ℤ, q = (n : ℚ) / 10 ^ p

/-- The ring append always places the new timestamp last. -/
theorem pushRing_getLast (R : ℕ) (x : ℚ) (l : List ℚ) :
    (pushRing R x l).getLast? = some x := by
  unfold pushRing
  dsimp only
  rw [List.drop_append_of_le_length
    (by simp only [List.length_append, List.length_singleton]; omega)]
  exact List.getLast?_concat _

/-- The ring append grows the length by one, capped at `R + 1`. -/
theorem pushRing_length (R : ℕ) (x : ℚ) (l : List ℚ) :
    (pushRing R x l).length = min (l.length + 1) (R + 1) := by
  unfold pushRing
  dsimp only
  simp only [List.length_drop, List.length_append, List.length_singleton]
  omega

/-- Unfolding a push sequence one element at a time. -/
theorem pushAll_concat (R : ℕ) (ts : List ℚ) (t : ℚ) :
    pushAll R (ts ++ [t]) = pushRing R t (pushAll R ts) := by
  simp [pushAll, List.foldl_append]

/-- After any push sequence the ring holds `min (pushes) (R + 1)` timestamps. -/
theorem pushAll_length (R : ℕ) (ts : List ℚ) :
    (pushAll R ts).length = min ts.length (R + 1) := by
  induction ts using List.reverseRecOn with
  | nil => simp [pushAll]
  | append_singleton ts t ih =>
    rw [pushAll_concat, pushRing_length, ih]
    simp
    omega

/-- The ring contents are a suffix of the pushed timestamps. -/
theorem pushAll_suffix (R : ℕ) (ts : List ℚ) : pushAll R ts <:+ ts := by
  induction ts using List.reverseRecOn with
  | nil => simp [pushAll]
  | append_singleton ts t ih =>
    rw [pushAll_concat]
    unfold pushRing
    dsimp only
    rcases ih with ⟨u, hu⟩
    exact (List.drop_suffix _ _).trans ⟨u, by rw [← List.append_assoc, hu]⟩

/-- Interval derivation peels off the first consecutive difference. -/
theorem intervalsOf_cons_cons (a b : ℚ) (t : List ℚ) :
    intervalsOf (a :: b :: t) = (b - a) :: intervalsOf (b :: t) := rfl

/-- There is one fewer interval than timestamps. -/
theorem intervalsOf_length (l : List ℚ) : (intervalsOf l).length = l.length - 1 := by
  simp [intervalsOf, List.length_zip]

/-- Strictly increasing timestamps give strictly positive intervals. -/
theorem intervalsOf_pos (l : List ℚ) (h : l.Pairwise (· < ·)) :
    ∀ x ∈ intervalsOf l, 0 < x := by
  induction l with
  | nil => simp [intervalsOf]
  | cons a t ih =>
    rcases t with _ | ⟨b, t2⟩
    · simp [intervalsOf]
    · rw [intervalsOf_cons_cons]
      rcases List.pairwise_cons.mp h with ⟨hab, ht⟩
      intro x hx
      rcases List.mem_cons.mp hx with h1 | h2
      · have := hab b (by simp)
        rw [h1]
        linarith
      · exact ih ht x h2

/-- Monotonicity of indexed access into a sorted list. -/
theorem sorted_getD_le (s : List ℚ) (hs : s.Sorted (· ≤ ·)) (i j : ℕ)
    (hij : i ≤ j) (hj : j < s.length) : s.getD i 0 ≤ s.getD j 0 := by
  have hi : i < s.length := lt_of_le_of_lt hij hj
  rw [List.getD_eq_getElem s 0 hi, List.getD_eq_getElem s 0 hj]
  exact hs.rel_get_of_le (Fin.mk_le_mk.mpr hij)

/-- Some element of a nonempty list lies at or below its Python median. -/
theorem exists_le_pymedian (l : List ℚ) (hne : l ≠ []) :
    ∃ x ∈ l, x ≤ pymedian l := by
  have hperm : (l.insertionSort (· ≤ ·)).Perm l := List.perm_insertionSort _ l
  have hsorted : (l.insertionSort (· ≤ ·)).Sorted (· ≤ ·) := List.sorted_insertionSort _ l
  have hlen : (l.insertionSort (· ≤ ·)).length = l.length := List.length_insertionSort _ l
  have hpos : 0 < (l.insertionSort (· ≤ ·)).length := by
    rw [hlen]
    exact List.length_pos.mpr hne
  refine ⟨(l.insertionSort (· ≤ ·)).getD 0 0, ?_, ?_⟩
  · rw [List.getD_eq_getElem _ 0 hpos]
    exact hperm.mem_iff.mp (List.get_mem _ 0 hpos)
  · unfold pymedian
    dsimp only
    split_ifs with hodd
    · exact sorted_getD_le _ hsorted 0 _ (Nat.zero_le _)
        (Nat.div_lt_self hpos (by norm_num))
    · have h2 : (l.insertionSort (· ≤ ·)).length / 2 < (l.insertionSort (· ≤ ·)).length :=
        Nat.div_lt_self hpos (by norm_num)
      have ha := sorted_getD_le _ hsorted 0 _ (Nat.zero_le _) h2
      have hb := sorted_getD_le _ hsorted 0 ((l.insertionSort (· ≤ ·)).length / 2 - 1)
        (Nat.zero_le _) (by omega)
      linarith

/-- Outlier filtering only removes intervals. -/
theorem filteredIntervals_subset (ivs : List ℚ) :
    ∀ x ∈ filteredIntervals ivs, x ∈ ivs := by
  unfold filteredIntervals
  split_ifs
  · exact fun x hx => (List.mem_filter.mp hx).1
  · exact fun x hx => hx

/-- On a nonempty list of positive intervals the outlier filter keeps at least
one interval (the one at or below the median survives). -/
theorem filteredIntervals_ne_nil (ivs : List ℚ) (hne : ivs ≠ [])
    (hpos : ∀ x ∈ ivs, 0 < x) : filteredIntervals ivs ≠ [] := by
  unfold filteredIntervals
  split_ifs with h5
  · obtain ⟨x0, hx0mem, hx0le⟩ := exists_le_pymedian ivs hne
    have hx0pos := hpos x0 hx0mem
    have hmed : 0 < pymedian ivs := lt_of_lt_of_le hx0pos hx0le
    have hx0 : x0 ∈ ivs.filter (fun x => x ≤ 5 * pymedian ivs) := by
      rw [List.mem_filter]
      exact ⟨hx0mem, by rw [decide_eq_true_iff]; linarith⟩
    exact List.ne_nil_of_mem hx0
  · exact hne

/-- On a nonempty list of positive intervals the statistics tail succeeds. -/
theorem statsFromIntervals_isSome (R : ℕ) (hR : 1 ≤ R) (l : List ℚ)
    (hne : l ≠ []) (hpos : ∀ x ∈ l, 0 < x) :
    (statsFromIntervals R l).isSome = true := by
  unfold statsFromIntervals
  dsimp only
  have hlpos : 0 < l.length := List.length_pos.mpr hne
  have hN : ¬ (min R l.length = 0) := by omega
  rw [if_neg hN]
  have husene : l.drop (l.length - min R l.length) ≠ [] := by
    have hlen : (l.drop (l.length - min R l.length)).length = min R l.length := by
      rw [List.length_drop]
      omega
    intro h
    rw [h] at hlen
    simp at hlen
    omega
  have husepos : ∀ x ∈ l.drop (l.length - min R l.length), 0 < x :=
    fun x hx => hpos x (List.drop_subset _ l hx)
  have hT : 0 < (l.drop (l.length - min R l.length)).sum :=
    List.sum_pos _ husepos husene
  rw [if_neg (not_le.mpr hT)]
  simp

/-- C1: the claim says every due tick commits the window and emits one
RUNNING row without raising.  The code instead reads the loop-local `z` in
`self._drift_level(z, warmup)` (line 324), a variable only the telegram
branch assigns; on a due tick before any telegram emission (here: telegram
sending disabled, first due tick at `now = 10`, `dt = 10`), the loop body
raises UnboundLocalError instead of emitting a row. -/
theorem c1_run_tick_unbound_z_error :
    isError (runTick
      ⟨1, 10, 1 / 200, false, false, false, true, 1, 200000, 20000, 200, false⟩
      ⟨none, none⟩
      ⟨5, [], 0, 0, 0, 10, none, none, none, 10, 0, 0, 0, 0, none, none⟩
      10) = true := by
  norm_num [isError, runTick, computeWindow, windowDue, refStats, abs_of_nonneg]

/-- C2: the claim says the drift tiers rise as LOW below 2e-4, MED below
1e-3, HIGH below 5e-3, every tier reachable.  In the code the MED threshold
(1e-4) sits below the LOW threshold (2e-4), so `z = 1 + 5e-4` — squarely in
the claimed MED band — classifies as HIGH, and outside warm-up the MED tier
is unreachable altogether. -/
theorem c2_drift_level_med_unreachable :
    driftLevel (some (1 + 5 / 10 ^ 4)) false = "HIGH" ∧
    ∀ q : ℚ, driftLevel (some q) false ∈ (["LOW", "HIGH", "CRITICAL"] : List String) := by
  constructor
  · norm_num [driftLevel, abs_of_nonneg]
  · intro q
    unfold driftLevel
    dsimp only
    split_ifs with h1 h2 h3 h4
    · simp
    · exfalso
      rw [not_lt] at h1
      linarith
    · simp
    · exact h4.elim
    · simp

/-- C3 (amended): after fewer than `R + 1` pushes the reference statistics
are absent; after `R + 1` or more pushes they are present provided the
pushed timestamps are strictly increasing (in general: provided outlier
filtering leaves intervals of positive total duration). -/
theorem c3_ref_stats_amended (R : ℕ) (ts : List ℚ) (hR : 1 ≤ R) :
    (ts.length < R + 1 → refStats R (pushAll R ts) = none) ∧
    (R + 1 ≤ ts.length → ts.Pairwise (· < ·) →
      (refStats R (pushAll R ts)).isSome = true) := by
  constructor
  · intro hlen
    unfold refStats
    rw [if_pos]
    rw [pushAll_length]
    omega
  · intro hlen hsorted
    have hring : (pushAll R ts).length = R + 1 := by rw [pushAll_length]; omega
    have hpair : (pushAll R ts).Pairwise (· < ·) :=
      hsorted.sublist (pushAll_suffix R ts).sublist
    have hivlen : (intervalsOf (pushAll R ts)).length = R := by
      rw [intervalsOf_length, hring]
      omega
    have hivne : intervalsOf (pushAll R ts) ≠ [] := by
      intro h
      rw [h] at hivlen
      simp at hivlen
      omega
    have hivpos := intervalsOf_pos _ hpair
    unfold refStats
    rw [if_neg (by omega)]
    exact statsFromIntervals_isSome R hR _
      (filteredIntervals_ne_nil _ hivne hivpos)
      (fun x hx => hivpos x (filteredIntervals_subset _ x hx))

/-- C3 witness: with `R = 1` and the strictly increasing pushes `[0, 1]`,
statistics are present. -/
theorem c3_witness :
    1 ≤ 1 ∧ 1 + 1 ≤ ([0, 1] : List ℚ).length ∧
    ([0, 1] : List ℚ).Pairwise (· < ·) ∧
    (refStats 1 (pushAll 1 [0, 1])).isSome = true :=
  ⟨le_refl 1, by norm_num, by norm_num,
   (c3_ref_stats_amended 1 [0, 1] (le_refl 1)).2 (by norm_num) (by norm_num)⟩

set_option maxRecDepth 40000 in
set_option maxHeartbeats 2000000 in
/-- C3 counterexample: at the deployed `REF_WINDOW_PULSES = 100`, pushing
101 equal timestamps (zero inter-arrival intervals, so `T_ref = 0`) leaves
the statistics absent even though `R + 1` pushes have occurred, refuting the
claim that they are present after every such sequence. -/
theorem c3_counterexample :
    refStats 100 (pushAll 100 (List.replicate 101 (0 : ℚ))) = none := by
  norm_num [refStats, pushAll, pushRing, statsFromIntervals, filteredIntervals, intervalsOf,
    pymedian, List.insertionSort, List.orderedInsert, List.foldl, List.replicate]

/-- C4: with at least 5 intervals, the statistics are computed from the
intervals filtered at `5 × median` (and a filter that leaves nothing yields
absent statistics); on intervals `[1, 1, 1, 1, 10]` (timestamps
`[0, 1, 2, 3, 4, 14]`, `R = 5`) the `10` is dropped and `N = 4`. -/
theorem c4_outlier_policy :
    (∀ (R : ℕ) (times : List ℚ), R + 1 ≤ times.length →
      5 ≤ (intervalsOf times).length →
      refStats R times =
        statsFromIntervals R
          ((intervalsOf times).filter (fun x => x ≤ 5 * pymedian (intervalsOf times)))) ∧
    (∀ (R : ℕ) (times : List ℚ), R + 1 ≤ times.length →
      filteredIntervals (intervalsOf times) = [] → refStats R times = none) ∧
    refStats 5 [0, 1, 2, 3, 4, 14] = some (4, 1, 0) ∧
    filteredIntervals (intervalsOf [0, 1, 2, 3, 4, 14]) = [1, 1, 1, 1] := by
  refine ⟨?_, ?_, ?_, ?_⟩
  · intro R times h1 h5
    unfold refStats filteredIntervals
    rw [if_neg (by omega), if_pos h5]
  · intro R times h1 hf
    unfold refStats
    rw [if_neg (by omega), hf]
    simp [statsFromIntervals]
  · norm_num [refStats, statsFromIntervals, filteredIntervals, intervalsOf, pymedian,
      List.insertionSort, List.orderedInsert]
  · norm_num [filteredIntervals, intervalsOf, pymedian, List.insertionSort, List.orderedInsert]

/-- C4 witness: the filter equation instantiated at `[0, 1, 2, 3, 4, 14]`,
and the empty-filter case instantiated at all-negative intervals. -/
theorem c4_witness :
    5 + 1 ≤ ([0, 1, 2, 3, 4, 14] : List ℚ).length ∧
    5 ≤ (intervalsOf ([0, 1, 2, 3, 4, 14] : List ℚ)).length ∧
    refStats 5 [0, 1, 2, 3, 4, 14] =
      statsFromIntervals 5 ((intervalsOf [0, 1, 2, 3, 4, 14]).filter
        (fun x => x ≤ 5 * pymedian (intervalsOf [0, 1, 2, 3, 4, 14]))) ∧
    filteredIntervals (intervalsOf ([0, -1, -2, -3, -4, -5] : List ℚ)) = [] ∧
    refStats 5 [0, -1, -2, -3, -4, -5] = none :=
  ⟨by norm_num, by norm_num [intervalsOf],
   c4_outlier_policy.1 5 _ (by norm_num) (by norm_num [intervalsOf]),
   by norm_num [filteredIntervals, intervalsOf, pymedian, List.insertionSort,
     List.orderedInsert],
   c4_outlier_policy.2.1 5 _ (by norm_num)
     (by norm_num [filteredIntervals, intervalsOf, pymedian, List.insertionSort,
       List.orderedInsert])⟩

/-- C5: the window sample returns `dt = now - t0`, `dc = total - count0` and
`rate = dc / dt` for positive `dt` (else 0), and the window is due exactly
when `dt ≥ W` and `|dt - W| < 0.2`; with `W = 10`: `dt = 10.05` is due,
`dt = 9.9` and `dt = 10.25` are not. -/
theorem c5_window_sample_and_due :
    (∀ (t0 : ℚ) (c0 : ℕ) (now : ℚ) (total : ℕ),
      computeWindow t0 c0 now total =
        (now - t0, (total : ℤ) - (c0 : ℤ),
         if 0 < now - t0 then (((total : ℤ) - (c0 : ℤ) : ℤ) : ℚ) / (now - t0) else 0)) ∧
    (∀ W dt : ℚ, windowDue W dt = true ↔ W ≤ dt ∧ |dt - W| < 1 / 5) ∧
    windowDue 10 (1005 / 100) = true ∧
    windowDue 10 (99 / 10) = false ∧
    windowDue 10 (1025 / 100) = false := by
  refine ⟨fun t0 c0 now total => rfl, fun W dt => ?_, ?_, ?_, ?_⟩
  · simp [windowDue, and_comm]
  · norm_num [windowDue, abs_of_nonneg]
  · norm_num [windowDue]
  · norm_num [windowDue, abs_of_nonneg]

/-- A single calibration step lands inside `[-PPM_LIMIT, PPM_LIMIT]`. -/
theorem applyCalibration_bound (cfg : CalCfg) (hp : Bool) (pb : Option ℚ)
    (rt rz w : ℚ) (st : CalState) (hL : 0 ≤ cfg.ppmLimit) :
    -cfg.ppmLimit ≤ (applyCalibration cfg hp pb rt rz w st).ppmOffset ∧
    (applyCalibration cfg hp pb rt rz w st).ppmOffset ≤ cfg.ppmLimit := by
  unfold applyCalibration
  dsimp only
  constructor
  · exact le_max_left _ _
  · exact max_le (by linarith) (min_le_left _ _)

/-- Any nonempty run of calibration steps ends inside the clamp interval. -/
theorem calRun_bound (cfg : CalCfg) (hL : 0 ≤ cfg.ppmLimit) :
    ∀ (inputs : List CalInput) (s : CalState), inputs ≠ [] →
      -cfg.ppmLimit ≤ (calRun cfg s inputs).ppmOffset ∧
      (calRun cfg s inputs).ppmOffset ≤ cfg.ppmLimit := by
  intro inputs
  induction inputs with
  | nil => intro s h; exact absurd rfl h
  | cons a tl ih =>
    intro s _
    rcases tl with _ | ⟨b, tl2⟩
    · simpa [calRun] using
        applyCalibration_bound cfg a.hasPeer a.peerBest a.rateTarget a.rateHz a.windowSec s hL
    · have := ih (applyCalibration cfg a.hasPeer a.peerBest a.rateTarget a.rateHz a.windowSec s)
        (by simp)
      simpa [calRun] using this

/-- C6: after any nonempty sequence of calibration steps the stored ppm
offset lies in `[-PPM_LIMIT, PPM_LIMIT]`; each step computes it as the clamp
of `Kp*e + Ki*i_term` with `i_term` incremented by
`e * (window / max 1 W)`, where `e = (target - rate)/target` for a positive
effective target and `e = 0` otherwise. -/
theorem c6_calibration_clamped (cfg : CalCfg) (s : CalState)
    (inputs : List CalInput) (hL : 0 ≤ cfg.ppmLimit) (hne : inputs ≠ []) :
    (-cfg.ppmLimit ≤ (calRun cfg s inputs).ppmOffset ∧
      (calRun cfg s inputs).ppmOffset ≤ cfg.ppmLimit) ∧
    (∀ (hp : Bool) (pb : Option ℚ) (rt rz w : ℚ) (st : CalState),
      (applyCalibration cfg hp pb rt rz w st).iTerm =
        st.iTerm + calError (effTarget hp pb cfg.peerLockOn rt) rz * (w / max 1 cfg.W) ∧
      (applyCalibration cfg hp pb rt rz w st).ppmOffset =
        max (-cfg.ppmLimit) (min cfg.ppmLimit
          (cfg.Kp * calError (effTarget hp pb cfg.peerLockOn rt) rz +
           cfg.Ki * (applyCalibration cfg hp pb rt rz w st).iTerm))) ∧
    (∀ t r : ℚ, t ≤ 0 → calError t r = 0) ∧
    (∀ t r : ℚ, 0 < t → calError t r = (t - r) / t) := by
  refine ⟨calRun_bound cfg hL inputs s hne, fun hp pb rt rz w st => ⟨rfl, rfl⟩, ?_, ?_⟩
  · intro t r ht
    simp [calError, not_lt.mpr ht]
  · intro t r ht
    simp [calError, ht]

/-- C6 witness: one step with the deployed constants stays inside
`[-200, 200]`. -/
theorem c6_witness :
    (0 : ℚ) ≤ 200 ∧ ([(⟨false, none, 10, 0, 10⟩ : CalInput)] : List CalInput) ≠ [] ∧
    (-(200 : ℚ) ≤
        (calRun ⟨200000, 20000, 200, 10, false⟩ ⟨0, 0⟩ [⟨false, none, 10, 0, 10⟩]).ppmOffset ∧
      (calRun ⟨200000, 20000, 200, 10, false⟩ ⟨0, 0⟩ [⟨false, none, 10, 0, 10⟩]).ppmOffset ≤
        200) :=
  ⟨by norm_num, by simp,
   (c6_calibration_clamped ⟨200000, 20000, 200, 10, false⟩ ⟨0, 0⟩
     [⟨false, none, 10, 0, 10⟩] (by norm_num) (by simp)).1⟩

/-- C7: the quality/lock classifier returns (WARMUP, WARMUP) when statistics
are unavailable or `N < R`; otherwise (OK, LOCKED/FREE) below the jitter
threshold and (WARN, HOLD/FREE) at or above it, the second component
depending on whether calibration or peer lock is enabled. -/
theorem c7_quality_and_lock (R : ℕ) (tau : ℚ) (calOn peerLockOn : Bool) (times : List ℚ) :
    (refStats R times = none →
      qualityAndLock R tau calOn peerLockOn times = ("WARMUP", "WARMUP")) ∧
    (∀ N r j, refStats R times = some (N, r, j) → N < R →
      qualityAndLock R tau calOn peerLockOn times = ("WARMUP", "WARMUP")) ∧
    (∀ N r j, refStats R times = some (N, r, j) → R ≤ N → jitterLt j tau = true →
      ((calOn || peerLockOn) = true →
        qualityAndLock R tau calOn peerLockOn times = ("OK", "LOCKED")) ∧
      ((calOn || peerLockOn) = false →
        qualityAndLock R tau calOn peerLockOn times = ("OK", "FREE"))) ∧
    (∀ N r j, refStats R times = some (N, r, j) → R ≤ N → jitterLt j tau = false →
      ((calOn || peerLockOn) = true →
        qualityAndLock R tau calOn peerLockOn times = ("WARN", "HOLD")) ∧
      ((calOn || peerLockOn) = false →
        qualityAndLock R tau calOn peerLockOn times = ("WARN", "FREE"))) := by
  refine ⟨fun h => by simp [qualityAndLock, h], fun N r j h hN => ?_,
    fun N r j h hN hj => ?_, fun N r j h hN hj => ?_⟩
  · simp [qualityAndLock, h, hN]
  · constructor <;> intro hc <;> simp [qualityAndLock, h, Nat.not_lt.mpr hN, hj, hc]
  · constructor <;> intro hc <;> simp [qualityAndLock, h, Nat.not_lt.mpr hN, hj, hc]

/-- C7 witness: an empty ring classifies as (WARMUP, WARMUP). -/
theorem c7_witness :
    refStats 2 ([] : List ℚ) = none ∧
    qualityAndLock 2 (1 / 200) false false [] = ("WARMUP", "WARMUP") :=
  ⟨by simp [refStats], (c7_quality_and_lock 2 (1 / 200) false false []).1 (by simp [refStats])⟩

/-- C8: the arbiter replaces its best peer only for telegrams with quality
OK, a present jitter, and a jitter strictly below the recorded best (or no
best yet); WARN telegrams and the 30-second expiry of stale last-seen
entries never touch the best peer; and observing (10 Hz, OK, 0.001) then
(9 Hz, OK, 0.01) keeps the first as best. -/
theorem c8_peer_arbiter (s : PeerState) (addr : String) (tg : Telegram) (now : ℚ) :
    (tg.quality = some "WARN" →
      (peerObserve s addr tg now).bestRate = s.bestRate ∧
      (peerObserve s addr tg now).bestQuality = s.bestQuality ∧
      (peerObserve s addr tg now).bestJitter = s.bestJitter ∧
      (peerObserve s addr tg now).bestIp = s.bestIp) ∧
    (tg.jitter = none →
      (peerObserve s addr tg now).bestRate = s.bestRate ∧
      (peerObserve s addr tg now).bestQuality = s.bestQuality ∧
      (peerObserve s addr tg now).bestJitter = s.bestJitter ∧
      (peerObserve s addr tg now).bestIp = s.bestIp) ∧
    (∀ r j, tg = ⟨some r, some "OK", some j⟩ →
      (s.bestJitter = none ∨ (∃ bj, s.bestJitter = some bj ∧ j < bj)) →
      (peerObserve s addr tg now).bestRate = some r ∧
      (peerObserve s addr tg now).bestQuality = some "OK" ∧
      (peerObserve s addr tg now).bestJitter = some j ∧
      (peerObserve s addr tg now).bestIp = some addr) ∧
    (∀ r j bj, tg = ⟨some r, some "OK", some j⟩ → s.bestJitter = some bj → bj ≤ j →
      (peerObserve s addr tg now).bestRate = s.bestRate ∧
      (peerObserve s addr tg now).bestQuality = s.bestQuality ∧
      (peerObserve s addr tg now).bestJitter = s.bestJitter ∧
      (peerObserve s addr tg now).bestIp = s.bestIp) ∧
    ((peerExpire s now).bestRate = s.bestRate ∧
      (peerExpire s now).bestQuality = s.bestQuality ∧
      (peerExpire s now).bestJitter = s.bestJitter ∧
      (peerExpire s now).bestIp = s.bestIp) ∧
    ((peerObserve (peerObserve peerInit "a" ⟨some 10, some "OK", some (1 / 1000)⟩ 0)
        "b" ⟨some 9, some "OK", some (1 / 100)⟩ 1).bestRate = some 10 ∧
      (peerObserve (peerObserve peerInit "a" ⟨some 10, some "OK", some (1 / 1000)⟩ 0)
        "b" ⟨some 9, some "OK", some (1 / 100)⟩ 1).bestJitter = some (1 / 1000)) := by
  refine ⟨?_, ?_, ?_, ?_, ⟨rfl, rfl, rfl, rfl⟩, ?_⟩
  · intro hq
    rcases tg with ⟨r, q, j⟩
    cases hq
    rcases r with _ | r <;> rcases j with _ | j <;> simp [peerObserve]
  · intro hj
    rcases tg with ⟨r, q, j⟩
    cases hj
    rcases r with _ | r <;> rcases q with _ | q <;> simp [peerObserve]
  · intro r j htg hbest
    cases htg
    rcases hbest with hb | ⟨bj, hb, hlt⟩
    · simp [peerObserve, hb]
    · simp [peerObserve, hb, hlt]
  · intro r j bj htg hb hle
    cases htg
    simp [peerObserve, hb, not_lt.mpr hle]
  · constructor <;> norm_num [peerObserve, peerInit, upsertSeen]

/-- C8 witness: a first OK observation with jitter becomes the best peer. -/
theorem c8_witness :
    (⟨some 10, some "OK", some (1 / 1000)⟩ : Telegram).quality = some "OK" ∧
    (peerObserve peerInit "a" ⟨some 10, some "OK", some (1 / 1000)⟩ 0).bestRate = some 10 :=
  ⟨rfl,
   ((c8_peer_arbiter peerInit "a" ⟨some 10, some "OK", some (1 / 1000)⟩ 0).2.2.1
     10 (1 / 1000) rfl (Or.inl rfl)).1⟩

/-- C10: the edge callback leaves the count, ring and last-pulse time
untouched for levels outside {0, 1}; for level 0 or 1 it increments the
count by exactly one, appends exactly one timestamp (which becomes the
ring's last element, the length growing by one up to the `R + 1` cap) and
stamps the pulse time. -/
theorem c10_edge_cb_frame (R : ℕ) (level : ℤ) (now : ℚ) (s : AcqState) :
    (level ≠ 0 → level ≠ 1 → edgeCb R level now s = s) ∧
    ((level = 0 ∨ level = 1) →
      edgeCb R level now s =
        { lastPulseTime := some now, countTotal := s.countTotal + 1,
          ring := pushRing R now s.ring } ∧
      (pushRing R now s.ring).getLast? = some now ∧
      (pushRing R now s.ring).length = min (s.ring.length + 1) (R + 1)) := by
  constructor
  · intro h0 h1
    simp [edgeCb, h0, h1]
  · intro h
    exact ⟨by simp [edgeCb, h], pushRing_getLast R now s.ring, pushRing_length R now s.ring⟩

/-- C10 witness: level 2 is ignored; level 1 counts one pulse. -/
theorem c10_witness :
    edgeCb 3 2 7 ⟨none, 4, [1, 2]⟩ = ⟨none, 4, [1, 2]⟩ ∧
    edgeCb 3 1 7 ⟨none, 4, [1, 2]⟩ =
      { lastPulseTime := some 7, countTotal := 5, ring := pushRing 3 7 [1, 2] } :=
  ⟨(c10_edge_cb_frame 3 2 7 ⟨none, 4, [1, 2]⟩).1 (by decide) (by decide),
   ((c10_edge_cb_frame 3 1 7 ⟨none, 4, [1, 2]⟩).2 (Or.inr rfl)).1⟩

theorem charDigit?_digitChar (d : ℕ) (h : d < 10) : charDigit? (digitChar d) = some d := by
  interval_cases d <;> decide

theorem digitChar_toNat (d : ℕ) (h : d < 10) :
    48 ≤ (digitChar d).toNat ∧ (digitChar d).toNat ≤ 57 := by
  interval_cases d <;> decide

theorem mapM_digitChar (l : List ℕ) (h : ∀ d ∈ l, d < 10) :
    (l.map digitChar).mapM charDigit? = some l := by
  induction l with
  | nil => rfl
  | cons a t ih =>
    simp only [List.map_cons, List.mapM_cons]
    rw [charDigit?_digitChar a (h a (by simp)), ih (fun d hd => h d (by simp [hd]))]
    rfl

theorem natChars_ne_nil (n : ℕ) : natChars n ≠ [] := by
  unfold natChars
  split_ifs with h
  · simp
  · simp [Nat.digits_ne_nil_iff_ne_zero.mpr h]

theorem natChars_mem_digit (n : ℕ) :
    ∀ c ∈ natChars n, 48 ≤ c.toNat ∧ c.toNat ≤ 57 := by
  unfold natChars
  split_ifs with h
  · intro c hc
    simp at hc
    rw [hc]
    decide
  · intro c hc
    simp only [List.mem_map, List.mem_reverse] at hc
    obtain ⟨d, hd, rfl⟩ := hc
    exact digitChar_toNat d (Nat.digits_lt_base (by norm_num) hd)

theorem natOf?_natChars (n : ℕ) : natOf? (natChars n) = some n := by
  unfold natOf?
  rw [if_neg (natChars_ne_nil n)]
  unfold natChars
  split_ifs with h
  · subst h
    decide
  · rw [mapM_digitChar _ (fun d hd => Nat.digits_lt_base (by norm_num) (List.mem_reverse.mp hd))]
    simp [Nat.ofDigits_digits]

theorem ofDigits_replicate_zero (k : ℕ) : Nat.ofDigits 10 (List.replicate k 0) = 0 := by
  induction k with
  | zero => rfl
  | succ m ih => simp [List.replicate_succ, Nat.ofDigits_cons, ih]

theorem mapM_replicate_zero (k : ℕ) :
    (List.replicate k '0').mapM charDigit? = some (List.replicate k 0) := by
  induction k with
  | zero => rfl
  | succ m ih =>
    simp only [List.replicate_succ, List.mapM_cons, ih]
    rfl

theorem natOf?_pad_general (k : ℕ) (l : List Char) (n : ℕ) (h : natOf? l = some n) :
    natOf? (List.replicate k '0' ++ l) = some n := by
  unfold natOf? at h ⊢
  by_cases hl : l = []
  · rw [if_pos hl] at h
    exact absurd h (by simp)
  rw [if_neg hl] at h
  rw [if_neg (by simp [hl])]
  obtain ⟨ds, hds, hval⟩ := Option.map_eq_some'.mp h
  rw [List.mapM_append, mapM_replicate_zero, hds]
  simp only [Option.bind_eq_bind, Option.some_bind, Option.pure_def, Option.bind_some,
    Option.map_some', List.reverse_append, List.reverse_replicate, Nat.ofDigits_append,
    ofDigits_replicate_zero, mul_zero, add_zero, hval]

theorem natChars_length_le (n p : ℕ) (hp : 1 ≤ p) (h : n < 10 ^ p) :
    (natChars n).length ≤ p := by
  unfold natChars
  split_ifs with h0
  · simpa using hp
  · simp only [List.length_map, List.length_reverse]
    rw [Nat.digits_len 10 n (by norm_num) h0]
    have := Nat.log_lt_of_lt_pow h0 h
    omega

theorem padZeros_length (p : ℕ) (l : List Char) (h : l.length ≤ p) :
    (padZeros p l).length = p := by
  unfold padZeros
  simp
  omega

theorem natOf?_padZeros_natChars (p n : ℕ) :
    natOf? (padZeros p (natChars n)) = some n :=
  natOf?_pad_general _ _ _ (natOf?_natChars n)

theorem splitOnC_cons (c a : Char) (t : List Char) :
    splitOnC c (a :: t) =
      if a = c then [] :: splitOnC c t
      else
        match splitOnC c t with
        | f :: fs => (a :: f) :: fs
        | [] => [[a]] := rfl

theorem splitOnC_not_mem (c : Char) (l : List Char) (h : c ∉ l) : splitOnC c l = [l] := by
  induction l with
  | nil => rfl
  | cons a t ih =>
    rw [splitOnC_cons, if_neg (by intro he; exact h (he ▸ List.mem_cons_self a t)),
      ih (fun hm => h (List.mem_cons_of_mem a hm))]

theorem splitOnC_append (c : Char) (a rest : List Char) (h : c ∉ a) :
    splitOnC c (a ++ c :: rest) = a :: splitOnC c rest := by
  induction a with
  | nil =>
    simp only [List.nil_append]
    rw [splitOnC_cons, if_pos rfl]
  | cons x t ih =>
    simp only [List.cons_append]
    rw [splitOnC_cons, if_neg (by intro he; exact h (he ▸ List.mem_cons_self x t)),
      ih (fun hm => h (List.mem_cons_of_mem x hm))]

theorem joinComma_cons_cons (f g : List Char) (gs : List (List Char)) :
    joinComma (f :: g :: gs) = f ++ ',' :: joinComma (g :: gs) := rfl

theorem splitOnC_joinComma (fields : List (List Char)) (hne : fields ≠ [])
    (h : ∀ f ∈ fields, ',' ∉ f) : splitOnC ',' (joinComma fields) = fields := by
  induction fields with
  | nil => exact absurd rfl hne
  | cons f fs ih =>
    rcases fs with _ | ⟨g, gs⟩
    · exact splitOnC_not_mem ',' f (h f (by simp))
    · rw [joinComma_cons_cons, splitOnC_append ',' f _ (h f (by simp))]
      rw [ih (by simp) (fun x hx => h x (by simp [hx]))]

theorem padZeros_mem_digit (p : ℕ) (n : ℕ) :
    ∀ c ∈ padZeros p (natChars n), 48 ≤ c.toNat ∧ c.toNat ≤ 57 := by
  unfold padZeros
  intro c hc
  rcases List.mem_append.mp hc with h1 | h2
  · rw [List.eq_of_mem_replicate h1]
    decide
  · exact natChars_mem_digit n c h2

theorem fixedCore_mem (p m : ℕ) :
    ∀ c ∈ fixedCore p m, 46 ≤ c.toNat ∧ c.toNat ≤ 57 := by
  unfold fixedCore
  intro c hc
  rcases List.mem_append.mp hc with h1 | h2
  · have := natChars_mem_digit (m / 10 ^ p) c h1
    omega
  · rcases List.mem_cons.mp h2 with h3 | h4
    · rw [h3]
      decide
    · have := padZeros_mem_digit p (m % 10 ^ p) c h4
      omega

theorem fixedChars_mem (p : ℕ) (q : ℚ) :
    ∀ c ∈ fixedChars p q, 45 ≤ c.toNat ∧ c.toNat ≤ 57 := by
  unfold fixedChars
  intro c hc
  rcases List.mem_append.mp hc with h1 | h2
  · split_ifs at h1 with hq
    · rw [List.mem_singleton.mp h1]
      decide
    · simp at h1
  · have := fixedCore_mem p _ c h2
    omega

theorem fixedCharsSp_mem (p : ℕ) (q : ℚ) :
    ∀ c ∈ fixedCharsSp p q, c = ' ' ∨ (45 ≤ c.toNat ∧ c.toNat ≤ 57) := by
  unfold fixedCharsSp
  intro c hc
  rcases List.mem_append.mp hc with h1 | h2
  · split_ifs at h1 with hq
    · right
      rw [List.mem_singleton.mp h1]
      decide
    · left
      exact List.mem_singleton.mp h1
  · right
    have := fixedCore_mem p _ c h2
    omega

theorem intChars_mem (n : ℤ) :
    ∀ c ∈ intChars n, 45 ≤ c.toNat ∧ c.toNat ≤ 57 := by
  unfold intChars
  intro c hc
  rcases List.mem_append.mp hc with h1 | h2
  · split_ifs at h1 with hq
    · rw [List.mem_singleton.mp h1]
      decide
    · simp at h1
  · have := natChars_mem_digit n.natAbs c h2
    omega

theorem comma_not_mem_of_range (l : List Char)
    (h : ∀ c ∈ l, 45 ≤ c.toNat ∧ c.toNat ≤ 57) : ',' ∉ l := by
  intro hc
  have := h ',' hc
  revert this
  decide

theorem comma_not_mem_natChars (n : ℕ) : ',' ∉ natChars n :=
  comma_not_mem_of_range _ (fun c hc => by have := natChars_mem_digit n c hc; omega)

theorem comma_not_mem_fixedCharsSp (p : ℕ) (q : ℚ) : ',' ∉ fixedCharsSp p q := by
  intro hc
  rcases fixedCharsSp_mem p q ',' hc with h1 | h2
  · exact absurd h1 (by decide)
  · revert h2
    decide

theorem dot_not_mem_of_digit (l : List Char)
    (h : ∀ c ∈ l, 48 ≤ c.toNat ∧ c.toNat ≤ 57) : '.' ∉ l := by
  intro hc
  have := h '.' hc
  revert this
  decide

theorem rndHE_intCast (m : ℤ) : rndHE ((m : ℚ)) = m := by
  unfold rndHE
  dsimp only
  rw [Int.floor_intCast]
  rw [if_pos]
  rw [sub_self]
  norm_num

theorem scaleMag_rep (p : ℕ) (n : ℤ) : scaleMag p ((n : ℚ) / 10 ^ p) = n.natAbs := by
  unfold scaleMag
  have h10 : (0 : ℚ) < 10 ^ p := by positivity
  have habs : |(n : ℚ) / 10 ^ p| * 10 ^ p = ((|n| : ℤ) : ℚ) := by
    rw [abs_div, abs_of_pos h10]
    push_cast
    field_simp
  rw [habs, rndHE_intCast]
  rcases le_or_lt 0 n with h | h
  · rw [abs_of_nonneg h]
    omega
  · rw [abs_of_neg h]
    omega

theorem dropWhile_space_of_digit_head (a : Char) (r : List Char)
    (ha : 48 ≤ a.toNat) : (a :: r).dropWhile (· = ' ') = a :: r := by
  rw [List.dropWhile_cons_of_neg]
  simp only [decide_eq_true_eq]
  intro he
  rw [he] at ha
  revert ha
  decide

theorem parseSign_dash (r : List Char) : parseSign ('-' :: r) = (true, r) := by
  simp [parseSign]

theorem parseSign_not_dash (a : Char) (r : List Char) (ha : a ≠ '-') :
    parseSign (a :: r) = (false, a :: r) := by
  simp [parseSign, ha]

theorem fracVal_eq (p m : ℕ) :
    ((m / 10 ^ p : ℕ) : ℚ) + ((m % 10 ^ p : ℕ) : ℚ) / 10 ^ p = (m : ℚ) / 10 ^ p := by
  have h0 : ((10 : ℚ) ^ p) ≠ 0 := by positivity
  rw [eq_div_iff h0, add_mul, div_mul_cancel₀ _ h0]
  exact_mod_cast Nat.div_add_mod' m (10 ^ p)

theorem parseFixed?_sign_core (p : ℕ) (hp : 1 ≤ p) (m : ℕ) (neg : Bool) :
    parseFixed? ((if neg then ['-'] else []) ++ fixedCore p m) =
      some ((if neg then (-1 : ℚ) else 1) * ((m : ℚ) / 10 ^ p)) := by
  obtain ⟨a, A', hA⟩ : ∃ a A', natChars (m / 10 ^ p) = a :: A' := by
    rcases hne : natChars (m / 10 ^ p) with _ | ⟨a, A'⟩
    · exact absurd hne (natChars_ne_nil _)
    · exact ⟨a, A', rfl⟩
  have haDigit : 48 ≤ a.toNat ∧ a.toNat ≤ 57 :=
    natChars_mem_digit _ a (by rw [hA]; exact List.mem_cons_self a A')
  have hand : a ≠ '-' := by
    intro he
    rw [he] at haDigit
    revert haDigit
    decide
  have hsplit : splitOnC '.' (natChars (m / 10 ^ p) ++ '.' :: padZeros p (natChars (m % 10 ^ p)))
      = [natChars (m / 10 ^ p), padZeros p (natChars (m % 10 ^ p))] := by
    rw [splitOnC_append _ _ _ (dot_not_mem_of_digit _ (natChars_mem_digit _)),
      splitOnC_not_mem _ _ (dot_not_mem_of_digit _ (padZeros_mem_digit p _))]
  have hblen : (padZeros p (natChars (m % 10 ^ p))).length = p :=
    padZeros_length p _ (natChars_length_le _ p hp (Nat.mod_lt _ (by positivity)))
  unfold parseFixed? fixedCore
  cases neg
  · simp only [if_neg Bool.false_ne_true, List.nil_append, Bool.false_eq_true, if_false]
    rw [hA, List.cons_append]
    rw [dropWhile_space_of_digit_head a _ haDigit.1]
    rw [parseSign_not_dash a _ hand]
    dsimp only
    rw [← List.cons_append, ← hA, hsplit]
    dsimp only
    rw [natOf?_natChars, natOf?_padZeros_natChars]
    simp only [Option.bind_eq_bind, Option.some_bind, Option.pure_def, hblen]
    rw [fracVal_eq p m]
    norm_num
  · simp only [if_pos, List.singleton_append, List.nil_append]
    have : (('-' :: (natChars (m / 10 ^ p) ++ '.' :: padZeros p (natChars (m % 10 ^ p)))).dropWhile
        (· = ' ')) = '-' :: (natChars (m / 10 ^ p) ++ '.' :: padZeros p (natChars (m % 10 ^ p))) := by
      rw [List.dropWhile_cons_of_neg]
      decide
    rw [this, parseSign_dash]
    dsimp only
    rw [hsplit]
    dsimp only
    rw [natOf?_natChars, natOf?_padZeros_natChars]
    simp only [Option.bind_eq_bind, Option.some_bind, Option.pure_def, hblen]
    rw [fracVal_eq p m]
    norm_num

theorem cast_natAbs_rat (n : ℤ) (hn : n < 0) : ((n.natAbs : ℕ) : ℚ) = -(n : ℚ) := by
  rw [Int.cast_natAbs, abs_of_neg hn]
  push_cast
  ring

theorem cast_natAbs_rat' (n : ℤ) (hn : 0 ≤ n) : ((n.natAbs : ℕ) : ℚ) = (n : ℚ) := by
  rw [Int.cast_natAbs, abs_of_nonneg hn]

theorem parseFixed?_fixedChars (p : ℕ) (hp : 1 ≤ p) (q : ℚ) (n : ℤ)
    (hq : q = (n : ℚ) / 10 ^ p) : parseFixed? (fixedChars p q) = some q := by
  subst hq
  unfold fixedChars
  rw [scaleMag_rep]
  have h10 : (0 : ℚ) < 10 ^ p := by positivity
  by_cases hn : (n : ℚ) / 10 ^ p < 0
  · rw [if_pos hn]
    have hneg : n < 0 := by
      by_contra hge
      push_neg at hge
      have : (0 : ℚ) ≤ (n : ℚ) / 10 ^ p := div_nonneg (by exact_mod_cast hge) (le_of_lt h10)
      linarith
    have hc := parseFixed?_sign_core p hp n.natAbs true
    simp only [if_pos] at hc
    rw [hc]
    congr 1
    rw [cast_natAbs_rat n hneg]
    ring
  · rw [if_neg hn]
    have hpos : 0 ≤ n := by
      by_contra hlt
      push_neg at hlt
      have hq0 : (n : ℚ) < 0 := by exact_mod_cast hlt
      exact hn (div_neg_of_neg_of_pos hq0 h10)
    have hc := parseFixed?_sign_core p hp n.natAbs false
    simp only [Bool.false_eq_true, if_false, List.nil_append] at hc
    rw [List.nil_append]
    rw [hc]
    congr 1
    rw [cast_natAbs_rat' n hpos]
    ring

theorem parseFixed?_space (l : List Char) : parseFixed? (' ' :: l) = parseFixed? l := by
  unfold parseFixed?
  rw [List.dropWhile_cons_of_pos (by decide)]

theorem parseFixed?_fixedCharsSp (p : ℕ) (hp : 1 ≤ p) (q : ℚ) (n : ℤ)
    (hq : q = (n : ℚ) / 10 ^ p) : parseFixed? (fixedCharsSp p q) = some q := by
  have key : fixedCharsSp p q = if q < 0 then fixedChars p q else ' ' :: fixedChars p q := by
    unfold fixedCharsSp fixedChars
    split_ifs <;> simp
  rw [key]
  split_ifs with h
  · exact parseFixed?_fixedChars p hp q n hq
  · rw [parseFixed?_space]
    exact parseFixed?_fixedChars p hp q n hq

theorem parseInt?_intChars (n : ℤ) : parseInt? (intChars n) = some n := by
  unfold parseInt? intChars
  by_cases hn : n < 0
  · rw [if_pos hn]
    simp only [List.singleton_append, parseSign_dash]
    rw [natOf?_natChars]
    show some (if true = true then -((n.natAbs : ℕ) : ℤ) else ((n.natAbs : ℕ) : ℤ)) = some n
    rw [if_pos rfl]
    congr 1
    omega
  · rw [if_neg hn, List.nil_append]
    obtain ⟨a, A', hA⟩ : ∃ a A', natChars n.natAbs = a :: A' := by
      rcases hne : natChars n.natAbs with _ | ⟨a, A'⟩
      · exact absurd hne (natChars_ne_nil _)
      · exact ⟨a, A', rfl⟩
    have haDigit : 48 ≤ a.toNat ∧ a.toNat ≤ 57 :=
      natChars_mem_digit _ a (by rw [hA]; exact List.mem_cons_self a A')
    have hand : a ≠ '-' := by
      intro he
      rw [he] at haDigit
      revert haDigit
      decide
    rw [hA]
    simp only [parseSign_not_dash a _ hand]
    rw [← hA, natOf?_natChars]
    show some (if false = true then -((n.natAbs : ℕ) : ℤ) else ((n.natAbs : ℕ) : ℤ)) = some n
    rw [if_neg (by simp)]
    congr 1
    omega

theorem dropTrailingNewline_concat (l : List Char) :
    dropTrailingNewline (l ++ ['\n']) = l := by
  unfold dropTrailingNewline
  rw [if_pos (List.getLast?_concat l)]
  exact List.dropLast_concat

theorem stripTrailSpaces_append_space (l : List Char) :
    stripTrailSpaces (l ++ [' ']) = stripTrailSpaces l := by
  unfold stripTrailSpaces
  rw [List.reverse_append]
  simp [List.dropWhile]

theorem stripTrailSpaces_no_trailing (l : List Char) (h : l.getLast? ≠ some ' ') :
    stripTrailSpaces l = l := by
  unfold stripTrailSpaces
  rcases hr : l.reverse with _ | ⟨a, r⟩
  · rw [List.reverse_eq_nil_iff] at hr
    simp [hr]
  · have ha : a ≠ ' ' := by
      intro he
      apply h
      rw [← List.head?_reverse, hr, he]
      rfl
    rw [List.dropWhile_cons_of_neg (by simp [ha])]
    rw [← hr, List.reverse_reverse]

theorem parseOpt_nil {α : Type} (f : List Char → Option α) : parseOpt f [] = some none := by
  simp [parseOpt]

theorem parseOpt_of_some {α : Type} (f : List Char → Option α) (l : List Char)
    (hne : l ≠ []) (a : α) (h : f l = some a) : parseOpt f l = some (some a) := by
  simp [parseOpt, hne, h]

theorem fixedChars_ne_nil (p : ℕ) (q : ℚ) : fixedChars p q ≠ [] := by
  unfold fixedChars fixedCore
  intro h
  rcases List.append_eq_nil.mp h with ⟨h1, h2⟩
  rcases List.append_eq_nil.mp h2 with ⟨h3, h4⟩
  exact natChars_ne_nil _ h3

theorem fixedCharsSp_ne_nil (p : ℕ) (q : ℚ) : fixedCharsSp p q ≠ [] := by
  unfold fixedCharsSp
  intro h
  rcases List.append_eq_nil.mp h with ⟨h1, h2⟩
  revert h1
  split_ifs <;> simp

theorem rowFields_comma_free (r : OutputRow) (ts : List Char)
    (hts : ',' ∉ ts)
    (hstatus : ',' ∉ r.status.data)
    (hdrift : ',' ∉ r.driftLevel.data)
    (hquality : ',' ∉ r.quality.data)
    (hlock : ',' ∉ r.lockState.data)
    (hpq : ∀ s, r.peerQuality = some s → ',' ∉ s.data) :
    ∀ f ∈ rowFields ts r, ',' ∉ f := by
  intro f hf
  unfold rowFields at hf
  simp only [List.mem_cons, List.not_mem_nil, or_false] at hf
  rcases hf with rfl | rfl | rfl | rfl | rfl | rfl | rfl | rfl | rfl | rfl | rfl | rfl | rfl | rfl | rfl
  · exact comma_not_mem_natChars _
  · exact comma_not_mem_natChars _
  · exact comma_not_mem_of_range _ (intChars_mem _)
  · exact comma_not_mem_of_range _ (fixedChars_mem _ _)
  · exact hstatus
  · exact hts
  · cases r.z
    · simp
    · exact comma_not_mem_of_range _ (fixedChars_mem _ _)
  · exact hdrift
  · exact comma_not_mem_of_range _ (fixedChars_mem _ _)
  · exact hquality
  · exact comma_not_mem_of_range _ (fixedChars_mem _ _)
  · exact comma_not_mem_of_range _ (fixedChars_mem _ _)
  · exact hlock
  · cases r.peerRateHz
    · simp
    · exact comma_not_mem_fixedCharsSp _ _
  · rcases hpq2 : r.peerQuality with _ | s
    · simp
    · intro hc
      rcases List.mem_append.mp hc with h1 | h2
      · exact (hpq s hpq2) h1
      · simp at h2

theorem stripTrailSpaces_nil : stripTrailSpaces [] = [] := rfl

/-- C9 (amended): a CSV line written by `write_row` and parsed back by column
position reproduces the constructing values, provided each numeric value is
exactly representable at its declared precision (9 decimals for rate_hz,
rate_target, z and peer_rate_hz; 6 for window_sec and ppm_offset), the string
columns are comma-free, and the trailing space the writer appends to the
final (peer_quality) column is stripped by the reader (peer_quality nonempty
and not space-terminated when present). -/
theorem c9_roundtrip_amended (r : OutputRow) (ts : List Char)
    (hts : ',' ∉ ts)
    (hstatus : ',' ∉ r.status.data)
    (hdrift : ',' ∉ r.driftLevel.data)
    (hquality : ',' ∉ r.quality.data)
    (hlock : ',' ∉ r.lockState.data)
    (hrate : RepFixed 9 r.rateHz)
    (hws : RepFixed 6 r.windowSec)
    (hrt : RepFixed 9 r.rateTarget)
    (hppm : RepFixed 6 r.ppmOffset)
    (hz : ∀ zv, r.z = some zv → RepFixed 9 zv)
    (hpr : ∀ pv, r.peerRateHz = some pv → RepFixed 9 pv)
    (hpq : ∀ s, r.peerQuality = some s →
      ',' ∉ s.data ∧ s.data ≠ [] ∧ s.data.getLast? ≠ some ' ') :
    parseRow? (writeRowLine ts r) =
      some ⟨r.seq, r.count, r.deltaCount, r.rateHz, r.status, ⟨ts⟩, r.z, r.driftLevel,
        r.windowSec, r.quality, r.rateTarget, r.ppmOffset, r.lockState, r.peerRateHz,
        r.peerQuality⟩ := by
  obtain ⟨nr, hnr⟩ := hrate
  obtain ⟨nw, hnw⟩ := hws
  obtain ⟨nt, hnt⟩ := hrt
  obtain ⟨np, hnp⟩ := hppm
  have hfields := rowFields_comma_free r ts hts hstatus hdrift hquality hlock
    (fun s hs => (hpq s hs).1)
  unfold parseRow? writeRowLine
  rw [dropTrailingNewline_concat, splitOnC_joinComma _ (by unfold rowFields; simp) hfields]
  unfold rowFields
  dsimp only
  rw [natOf?_natChars, natOf?_natChars, parseInt?_intChars,
    parseFixed?_fixedChars 9 (by norm_num) r.rateHz nr hnr,
    parseFixed?_fixedChars 6 (by norm_num) r.windowSec nw hnw,
    parseFixed?_fixedChars 9 (by norm_num) r.rateTarget nt hnt,
    parseFixed?_fixedChars 6 (by norm_num) r.ppmOffset np hnp]
  rcases hzc : r.z with _ | zv <;>
    [rw [parseOpt_nil];
     (obtain ⟨nz, hnz⟩ := hz zv hzc
      rw [parseOpt_of_some parseFixed? _ (fixedChars_ne_nil 9 zv) zv
        (parseFixed?_fixedChars 9 (by norm_num) zv nz hnz)])] <;>
  (rcases hprc : r.peerRateHz with _ | pv <;>
    [rw [parseOpt_nil];
     (obtain ⟨npv, hnpv⟩ := hpr pv hprc
      rw [parseOpt_of_some parseFixed? _ (fixedCharsSp_ne_nil 9 pv) pv
        (parseFixed?_fixedCharsSp 9 (by norm_num) pv npv hnpv)])]) <;>
  (rcases hpqc : r.peerQuality with _ | ps <;>
    [rw [stripTrailSpaces_append_space, stripTrailSpaces_nil, if_pos rfl];
     rw [stripTrailSpaces_append_space, stripTrailSpaces_no_trailing _ (hpq ps hpqc).2.2,
       if_neg (hpq ps hpqc).2.1]]) <;>
  simp only [Option.bind_eq_bind, Option.some_bind, Option.pure_def]

theorem parseFixed?_fixedChars_nonneg_round (p : ℕ) (hp : 1 ≤ p) (q : ℚ) (h : ¬ q < 0) :
    parseFixed? (fixedChars p q) = some ((scaleMag p q : ℚ) / 10 ^ p) := by
  unfold fixedChars
  rw [if_neg h, List.nil_append]
  have hc := parseFixed?_sign_core p hp (scaleMag p q) false
  simp only [Bool.false_eq_true, if_false, List.nil_append, one_mul] at hc
  exact hc

theorem scaleMag_counterexample : scaleMag 9 (1340 / 201) = 6666666667 := by
  have habs : |(1340 / 201 : ℚ)| * 10 ^ 9 = 1340000000000 / 201 := by
    rw [abs_of_pos (by norm_num)]
    norm_num
  have hfloor : ⌊(1340000000000 : ℚ) / 201⌋ = 6666666666 := by
    rw [Int.floor_eq_iff]
    norm_num
  unfold scaleMag rndHE
  rw [habs, hfloor]
  norm_num
  rfl

theorem parseRow?_rateHz_rounded (r : OutputRow) (ts : List Char)
    (hts : ',' ∉ ts)
    (hstatus : ',' ∉ r.status.data)
    (hdrift : ',' ∉ r.driftLevel.data)
    (hquality : ',' ∉ r.quality.data)
    (hlock : ',' ∉ r.lockState.data)
    (hrate : ¬ r.rateHz < 0)
    (hws : RepFixed 6 r.windowSec)
    (hrt : RepFixed 9 r.rateTarget)
    (hppm : RepFixed 6 r.ppmOffset)
    (hzn : r.z = none)
    (hprn : r.peerRateHz = none)
    (hpqn : r.peerQuality = none) :
    (parseRow? (writeRowLine ts r)).map ParsedRow.rateHz =
      some ((scaleMag 9 r.rateHz : ℚ) / 10 ^ 9) := by
  obtain ⟨nw, hnw⟩ := hws
  obtain ⟨nt, hnt⟩ := hrt
  obtain ⟨np, hnp⟩ := hppm
  have hfields := rowFields_comma_free r ts hts hstatus hdrift hquality hlock
    (fun s hs => by rw [hpqn] at hs; exact absurd hs (by simp))
  unfold parseRow? writeRowLine
  rw [dropTrailingNewline_concat, splitOnC_joinComma _ (by unfold rowFields; simp) hfields]
  unfold rowFields
  dsimp only
  rw [hzn, hprn, hpqn]
  rw [natOf?_natChars, natOf?_natChars, parseInt?_intChars,
    parseFixed?_fixedChars_nonneg_round 9 (by norm_num) r.rateHz hrate,
    parseFixed?_fixedChars 6 (by norm_num) r.windowSec nw hnw,
    parseFixed?_fixedChars 9 (by norm_num) r.rateTarget nt hnt,
    parseFixed?_fixedChars 6 (by norm_num) r.ppmOffset np hnp,
    parseOpt_nil,
    stripTrailSpaces_append_space, stripTrailSpaces_nil, if_pos rfl]
  simp only [Option.bind_eq_bind, Option.some_bind, Option.pure_def, Option.map_some']

/-- C9 counterexample: an emitted row carrying the realistic rate
67 pulses / 10.05 s = 1340/201 Hz formats to `6.666666667` and parses back
to 6666666667/10^9, a strictly larger rational - the row does not reproduce
the semantic value it was constructed with. -/
theorem c9_counterexample :
    (parseRow? (writeRowLine ("2026-01-01T00:00:00Z".data)
        ⟨1, 67, 67, 1340 / 201, "RUNNING", none, "LOW", 201 / 20, "OK", 10, 0, "FREE",
         none, none⟩)).map ParsedRow.rateHz = some (6666666667 / 10 ^ 9) ∧
    (1340 / 201 : ℚ) < 6666666667 / 10 ^ 9 := by
  constructor
  · rw [parseRow?_rateHz_rounded
      ⟨1, 67, 67, 1340 / 201, "RUNNING", none, "LOW", 201 / 20, "OK", 10, 0, "FREE", none, none⟩
      ("2026-01-01T00:00:00Z".data) (by decide) (by decide) (by decide) (by decide) (by decide)
      (by norm_num) ⟨10050000, by norm_num⟩ ⟨10000000000, by norm_num⟩ ⟨0, by norm_num⟩
      rfl rfl rfl]
    rw [scaleMag_counterexample]
    norm_num
  · norm_num

/-- C9 witness: a fully representable row (with a peer quality string) parses
back to exactly its constructing values. -/
theorem c9_witness :
    RepFixed 9 (5 / 2 : ℚ) ∧
    (',' ∉ ("2026-01-01T00:00:00Z".data)) ∧
    parseRow? (writeRowLine ("2026-01-01T00:00:00Z".data)
        ⟨1, 42, -3, 5 / 2, "RUNNING", none, "LOW", 10, "OK", 10, -1 / 8, "FREE", none,
         some "OK"⟩) =
      some ⟨1, 42, -3, 5 / 2, "RUNNING", ⟨"2026-01-01T00:00:00Z".data⟩, none, "LOW", 10,
        "OK", 10, -1 / 8, "FREE", none, some "OK"⟩ :=
  ⟨⟨2500000000, by norm_num⟩, by decide,
   c9_roundtrip_amended
     ⟨1, 42, -3, 5 / 2, "RUNNING", none, "LOW", 10, "OK", 10, -1 / 8, "FREE", none, some "OK"⟩
     ("2026-01-01T00:00:00Z".data) (by decide) (by decide) (by decide) (by decide) (by decide)
     ⟨2500000000, by norm_num⟩ ⟨10000000, by norm_num⟩ ⟨10000000000, by norm_num⟩
     ⟨-125000, by norm_num⟩
     (fun zv h => absurd h (by simp))
     (fun pv h => absurd h (by simp))
     (fun s h => by
       injection h with h2
       subst h2
       exact ⟨by decide, by decide, by decide⟩)⟩
